import Mathlib

/-!
Verification of the `path-helper-util` registry (src/path-helper-util.ts,
src/types.ts).

The registry is a TypeScript class holding a plain object `paths` mapping a
string key to a path entry `{ path, label, navs, group }`.  We embed it at two
levels:

* `PathReg` — value semantics: the `paths` object is an association list in
  property-creation order (JS object property order).  All value-level claims
  (registration/lookup round-trip, filtering, overwrite, order, miss
  behaviour) are settled here.

* `RefSem` — reference semantics: an explicit heap of entry objects and of
  map objects, with the registry holding a reference to its `paths` map
  object.  This captures the aliasing facts of the source: query views are
  freshly allocated object literals, while `getPaths` returns `{...paths}`,
  a new top-level map object whose bindings share the stored entry objects.
-/

set_option autoImplicit false

/-- An argument to a path function: TS `string | number | undefined`. -/
inductive Arg where
  | str : String → Arg
  | num : Int → Arg
  | undef : Arg

/-- TS `type PathFunction = (...args: (string | number | undefined)[]) => string`. -/
abbrev PathFunction := List Arg → String

/-- TS `interface NavLink { path; label; group? }` (types.ts). -/
structure NavLink where
  path : PathFunction
  label : String
  group : Option String

/-- Parse a run of decimal digits (accumulator form); `none` on a non-digit. -/
def digitsToNat : List Char → Nat → Option Nat
  | [], acc => some acc
  | c :: cs, acc =>
    if c.isDigit then digitsToNat cs (acc * 10 + (c.toNat - 48)) else none

/-- JS array-index test: a string is an array index when it is the canonical
decimal numeral of some `n` with `0 ≤ n < 2^32 - 1`.  Such keys are iterated
first, in ascending numeric order, by `Object.values`. -/
def arrayIndex (s : String) : Option Nat :=
  match s.data with
  | [] => none
  | c :: cs =>
    if c = '0' then (if cs = [] then some 0 else none)
    else
      match digitsToNat (c :: cs) 0 with
      | some n => if n < 4294967295 then some n else none
      | none => none

/-- Numeric key of a binding whose key is an array index (0 otherwise). -/
def idxVal {α : Type} (p : String × α) : Nat := (arrayIndex p.1).getD 0

/-- Whether a binding's key is a JS array index. -/
def isIndexKey {α : Type} (p : String × α) : Bool := (arrayIndex p.1).isSome

/-- JS own-property iteration order of a plain object: array-index keys in
ascending numeric order, then the remaining string keys in creation order. -/
def jsKeyOrder {α : Type} (m : List (String × α)) : List (String × α) :=
  List.insertionSort (fun a b => idxVal a ≤ idxVal b) (m.filter isIndexKey)
    ++ m.filter (fun p => !isIndexKey p)

/-- JS property assignment `m[k] = v` on a plain object: an existing key keeps
its position in creation order, a new key is appended.  (Generic over the key
type so the same primitive serves string-keyed objects and `Nat`-keyed
heaps.) -/
def setKey {κ α : Type} [DecidableEq κ] : List (κ × α) → κ → α → List (κ × α)
  | [], k, v => [(k, v)]
  | p :: rest, k, v => if p.1 = k then (k, v) :: rest else p :: setKey rest k v

/-- JS property read `m[k]`: the binding for `k`, or `undefined` (`none`). -/
def lookupKey {κ α : Type} [DecidableEq κ] (m : List (κ × α)) (k : κ) : Option α :=
  (m.find? (fun p => decide (p.1 = k))).map (fun p => p.2)

/-- In-place overwrite of the value stored under a key (heap cell update). -/
def updateAt {κ α : Type} [DecidableEq κ] (m : List (κ × α)) (k : κ) (v : α) :
    List (κ × α) :=
  m.map (fun p => if p.1 = k then (k, v) else p)

namespace PathReg

/-- TS `interface Path { path; label; navs; group? }` (types.ts).  Named
`PathReg.Path` to avoid clashing with the library's `Path`. -/
structure Path where
  path : PathFunction
  label : String
  navs : List String
  group : Option String

/-- The private `paths` object, in property-creation order. -/
abbrev Paths := List (String × Path)

/-- The duck-typed check `isPath`: truthy object with `"path"`, `"label"` and
`"navs"` members.  A typed `Path` record carries all three fields by
construction, so on a stored entry the check is identically true; the
reference model's `RefSem.isPath` keeps the field-presence test observable. -/
def isPath (_obj : Path) : Bool := true

/-- `registerPath(key, pathFunction, label, navs, group)`:
`this.paths[key] = { path: pathFunction, label, navs, group }`. -/
def registerPath (st : Paths) (key : String) (pathFunction : PathFunction)
    (label : String) (navs : List String) (group : Option String) : Paths :=
  setKey st key { path := pathFunction, label := label, navs := navs, group := group }

/-- `Object.values(this.paths)` in JS iteration order. -/
def objectValues (st : Paths) : List Path :=
  (jsKeyOrder st).map (fun p => p.2)

/-- The view literal `{ path: pathObj.path, label: pathObj.label, group: pathObj.group }`. -/
def toNavLink (p : Path) : NavLink :=
  { path := p.path, label := p.label, group := p.group }

/-- `extractNavLinks(navName)`: values, filtered by `isPath`, filtered by
`pathObj.navs.includes(navName)`, projected to nav links. -/
def extractNavLinks (st : Paths) (navName : String) : List NavLink :=
  ((((objectValues st).filter (fun pathObj => isPath pathObj)).filter
    (fun p => decide (navName ∈ p.navs))).map toNavLink)

/-- `extractGroupPaths(groupName)`: values, filtered by `isPath`, filtered by
`pathObj.group === groupName`, projected to nav links.  An absent `group`
(`none`) is never `===` to a string argument. -/
def extractGroupPaths (st : Paths) (groupName : String) : List NavLink :=
  ((((objectValues st).filter (fun pathObj => isPath pathObj)).filter
    (fun p => decide (p.group = some groupName))).map toNavLink)

/-- `getPath(key)`: read `this.paths[key]`; if it passes `isPath`, project it,
otherwise return `undefined`. -/
def getPath (st : Paths) (key : String) : Option NavLink :=
  match lookupKey st key with
  | some pathObj => if isPath pathObj then some (toNavLink pathObj) else none
  | none => none

/-- `getPaths()`: `{ ...this.paths }`.  At value level the spread is the
identity on the bindings; the fact that it allocates a fresh top-level object
sharing the entry objects is captured by `RefSem.getPaths`. -/
def getPaths (st : Paths) : Paths := st

/-- The keys of the registry object are pairwise distinct — automatic for a
JS object, an invariant of the association-list embedding. -/
def KeysNodup (st : Paths) : Prop := (st.map (fun p => p.1)).Nodup

end PathReg

/-- The `() => "/"` path function of the spec's example scenario. -/
def homeFn : PathFunction := fun _ => "/"

/-- The example's `(id) => "/user/" + id` path function. -/
def profileFn : PathFunction := fun args =>
  match args.head? with
  | some (Arg.str s) => "/user/" ++ s
  | some (Arg.num n) => "/user/" ++ toString n
  | _ => "/user/undefined"

example : PathReg.getPath [] "missing" = none := rfl

example :
    (PathReg.extractNavLinks
      (PathReg.registerPath (PathReg.registerPath [] "home" homeFn "Home" ["main"] none)
        "profile" profileFn "Profile" ["main"] (some "user")) "main").map
      (fun v => v.label) = ["Home", "Profile"] := by decide

/-! Generic lemmas about the JS-object primitives. -/

lemma lookupKey_cons_eq {κ α : Type} [DecidableEq κ] (p : κ × α) (m : List (κ × α)) (k : κ)
    (h : p.1 = k) : lookupKey (p :: m) k = some p.2 := by
  unfold lookupKey
  rw [List.find?_cons_of_pos _ (by simp [h])]
  rfl

lemma lookupKey_cons_ne {κ α : Type} [DecidableEq κ] (p : κ × α) (m : List (κ × α)) (k : κ)
    (h : p.1 ≠ k) : lookupKey (p :: m) k = lookupKey m k := by
  unfold lookupKey
  rw [List.find?_cons_of_neg _ (by simp [h])]

/-- Reading back the key just assigned yields the assigned value. -/
lemma lookupKey_setKey_self {κ α : Type} [DecidableEq κ] (m : List (κ × α)) (k : κ) (v : α) :
    lookupKey (setKey m k v) k = some v := by
  induction m with
  | nil => simp [setKey, lookupKey]
  | cons p rest ih =>
    by_cases h : p.1 = k
    · rw [setKey, if_pos h, lookupKey_cons_eq _ _ _ rfl]
    · rw [setKey, if_neg h, lookupKey_cons_ne _ _ _ h, ih]

/-- The binding just assigned is a member of the updated object. -/
lemma mem_setKey_self {κ α : Type} [DecidableEq κ] (m : List (κ × α)) (k : κ) (v : α) :
    (k, v) ∈ setKey m k v := by
  induction m with
  | nil => simp [setKey]
  | cons p rest ih =>
    by_cases h : p.1 = k <;> simp [setKey, h, ih]

/-- Every key of the updated object is an old key or the assigned key. -/
lemma mem_keys_setKey {κ α : Type} [DecidableEq κ] (m : List (κ × α)) (k : κ) (v : α) (a : κ)
    (h : a ∈ (setKey m k v).map (fun p => p.1)) :
    a ∈ m.map (fun p => p.1) ∨ a = k := by
  induction m with
  | nil => simp [setKey] at h; simp [h]
  | cons p rest ih =>
    by_cases hk : p.1 = k
    · rw [setKey, if_pos hk] at h
      simp only [List.map_cons, List.mem_cons] at h ⊢
      rcases h with h | h
      · exact Or.inr h
      · exact Or.inl (Or.inr h)
    · rw [setKey, if_neg hk] at h
      simp only [List.map_cons, List.mem_cons] at h ⊢
      rcases h with h | h
      · exact Or.inl (Or.inl h)
      · rcases ih h with h' | h'
        · exact Or.inl (Or.inr h')
        · exact Or.inr h'

/-- Property assignment preserves distinctness of the keys. -/
lemma keys_setKey_nodup {κ α : Type} [DecidableEq κ] (m : List (κ × α)) (k : κ) (v : α)
    (h : (m.map (fun p => p.1)).Nodup) : ((setKey m k v).map (fun p => p.1)).Nodup := by
  induction m with
  | nil => simp [setKey]
  | cons p rest ih =>
    rw [List.map_cons] at h
    rcases List.nodup_cons.mp h with ⟨hp, hrest⟩
    by_cases hk : p.1 = k
    · rw [setKey, if_pos hk]
      simp only [List.map_cons]
      exact List.nodup_cons.mpr ⟨by rw [← hk]; exact hp, hrest⟩
    · rw [setKey, if_neg hk]
      simp only [List.map_cons]
      refine List.nodup_cons.mpr ⟨?_, ih hrest⟩
      intro hmem
      rcases mem_keys_setKey rest k v p.1 hmem with hm | hm
      · exact hp (by simpa using hm)
      · exact hk hm

/-- Assigning a key leaves exactly one binding for that key when the keys
were distinct beforehand. -/
lemma countP_setKey_eq_one {κ α : Type} [DecidableEq κ] (m : List (κ × α)) (k : κ) (v : α)
    (h : (m.map (fun p => p.1)).Nodup) :
    (setKey m k v).countP (fun p => decide (p.1 = k)) = 1 := by
  induction m with
  | nil => simp [setKey]
  | cons p rest ih =>
    rw [List.map_cons] at h
    rcases List.nodup_cons.mp h with ⟨hp, hrest⟩
    by_cases hk : p.1 = k
    · rw [setKey, if_pos hk, List.countP_cons]
      have hz : rest.countP (fun p => decide (p.1 = k)) = 0 := by
        apply List.countP_eq_zero.mpr
        intro q hq hqk
        have : q.1 = k := of_decide_eq_true hqk
        exact hp (by rw [← hk] at this; rw [← this]; exact List.mem_map_of_mem _ hq)
      simp [hz]
    · rw [setKey, if_neg hk, List.countP_cons]
      simp [hk, ih hrest]

/-- The JS iteration order is a permutation of the creation-order bindings. -/
lemma jsKeyOrder_perm {α : Type} (m : List (String × α)) :
    List.Perm (jsKeyOrder m) m :=
  ((List.perm_insertionSort _ _).append (List.Perm.refl _)).trans
    (List.filter_append_perm _ m)

/-- Every stored entry shows up among `Object.values`. -/
lemma mem_objectValues {st : PathReg.Paths} {kv : String × PathReg.Path} (h : kv ∈ st) :
    kv.2 ∈ PathReg.objectValues st :=
  List.mem_map_of_mem _ ((jsKeyOrder_perm st).mem_iff.mpr h)

/-- A key absent from the object looks up to `undefined`. -/
lemma lookupKey_eq_none {κ α : Type} [DecidableEq κ] (m : List (κ × α)) (k : κ)
    (h : ∀ p ∈ m, p.1 ≠ k) : lookupKey m k = none := by
  unfold lookupKey
  rw [List.find?_eq_none.mpr]
  · rfl
  · intro p hp
    simp [h p hp]

namespace PathReg

/-- The duck-type filter never drops a typed entry, so `extractNavLinks` is a
plain filter-and-project over the iteration order. -/
lemma extractNavLinks_eq (st : Paths) (n : String) :
    extractNavLinks st n
      = ((objectValues st).filter (fun p => decide (n ∈ p.navs))).map toNavLink := by
  unfold extractNavLinks
  rw [show (fun pathObj => isPath pathObj) = (fun _ : Path => true) from rfl,
    List.filter_true]

/-- Same for `extractGroupPaths`. -/
lemma extractGroupPaths_eq (st : Paths) (g : String) :
    extractGroupPaths st g
      = ((objectValues st).filter (fun p => decide (p.group = some g))).map toNavLink := by
  unfold extractGroupPaths
  rw [show (fun pathObj => isPath pathObj) = (fun _ : Path => true) from rfl,
    List.filter_true]

end PathReg

/-- C1.  Immediately after `register(key, pathFunction, label, navs, group)`,
`getPath(key)` returns a present view carrying that label and that group,
whose `pathFunction` returns on any argument list exactly what the registered
function returns. -/
theorem register_getPath_roundtrip (st : PathReg.Paths) (key : String) (fn : PathFunction)
    (label : String) (navs : List String) (group : Option String) :
    PathReg.getPath (PathReg.registerPath st key fn label navs group) key
      = some { path := fn, label := label, group := group } ∧
    ∀ args : List Arg,
      ((PathReg.getPath (PathReg.registerPath st key fn label navs group) key).map
        (fun v => v.path args)) = some (fn args) := by
  have h : PathReg.getPath (PathReg.registerPath st key fn label navs group) key
      = some { path := fn, label := label, group := group } := by
    unfold PathReg.getPath PathReg.registerPath
    rw [lookupKey_setKey_self]
    rfl
  exact ⟨h, fun args => by rw [h]; rfl⟩

/-- C2.  `extractNavLinks(n)` returns exactly the projections, in iteration
order, of the stored entries whose `navs` contains `n`; every returned view
comes from a matching entry with non-empty `navs`; when nothing matches the
result is empty. -/
theorem extractNavLinks_filter_correct (st : PathReg.Paths) (n : String) :
    PathReg.extractNavLinks st n
      = ((PathReg.objectValues st).filter (fun p => decide (n ∈ p.navs))).map
          PathReg.toNavLink ∧
    (∀ v ∈ PathReg.extractNavLinks st n,
      ∃ p, p ∈ PathReg.objectValues st ∧ n ∈ p.navs ∧ p.navs ≠ [] ∧
        v = PathReg.toNavLink p) ∧
    ((∀ p ∈ PathReg.objectValues st, n ∉ p.navs) →
      PathReg.extractNavLinks st n = []) := by
  have he := PathReg.extractNavLinks_eq st n
  refine ⟨he, ?_, ?_⟩
  · intro v hv
    rw [he] at hv
    rcases List.mem_map.mp hv with ⟨p, hp, hvp⟩
    rcases List.mem_filter.mp hp with ⟨hpv, hcond⟩
    have hmem : n ∈ p.navs := of_decide_eq_true hcond
    refine ⟨p, hpv, hmem, ?_, hvp.symm⟩
    intro hnil
    rw [hnil] at hmem
    exact (List.not_mem_nil n) hmem
  · intro hall
    rw [he, List.filter_eq_nil_iff.mpr (fun p hp => by simp [hall p hp]), List.map_nil]

/-- C3.  `extractGroupPaths(g)` returns exactly the projections of the stored
entries whose `group` is present and equals `g`; an entry with absent group
matches no string query, the empty string included. -/
theorem extractGroupPaths_filter_correct (st : PathReg.Paths) (g : String) :
    PathReg.extractGroupPaths st g
      = ((PathReg.objectValues st).filter (fun p => decide (p.group = some g))).map
          PathReg.toNavLink ∧
    (∀ v ∈ PathReg.extractGroupPaths st g,
      ∃ p, p ∈ PathReg.objectValues st ∧ p.group = some g ∧ v = PathReg.toNavLink p) ∧
    (∀ p ∈ PathReg.objectValues st, p.group = none →
      ∀ g' : String, ¬ (p.group = some g')) ∧
    ((∀ p ∈ PathReg.objectValues st, p.group ≠ some g) →
      PathReg.extractGroupPaths st g = []) := by
  have he := PathReg.extractGroupPaths_eq st g
  refine ⟨he, ?_, ?_, ?_⟩
  · intro v hv
    rw [he] at hv
    rcases List.mem_map.mp hv with ⟨p, hp, hvp⟩
    rcases List.mem_filter.mp hp with ⟨hpv, hcond⟩
    exact ⟨p, hpv, of_decide_eq_true hcond, hvp.symm⟩
  · intro p _ hnone g' hsome
    rw [hnone] at hsome
    exact Option.noConfusion hsome
  · intro hall
    rw [he, List.filter_eq_nil_iff.mpr (fun p hp => by simp [hall p hp]), List.map_nil]

/-- C5.  A miss is not a fault: `getPath` on an unregistered key returns the
absent sentinel `none`, and the two extract operations return `[]` when no
entry matches.  (Every operation is a total function of the state, so no
fault is even representable.) -/
theorem miss_behavior_no_fault (st : PathReg.Paths) (k n g : String)
    (hk : ∀ p ∈ st, p.1 ≠ k)
    (hn : ∀ p ∈ PathReg.objectValues st, n ∉ p.navs)
    (hg : ∀ p ∈ PathReg.objectValues st, p.group ≠ some g) :
    PathReg.getPath st k = none ∧
    PathReg.extractNavLinks st n = [] ∧
    PathReg.extractGroupPaths st g = [] := by
  refine ⟨?_, ?_, ?_⟩
  · unfold PathReg.getPath
    rw [lookupKey_eq_none st k hk]
  · rw [PathReg.extractNavLinks_eq,
      List.filter_eq_nil_iff.mpr (fun p hp => by simp [hn p hp]), List.map_nil]
  · rw [PathReg.extractGroupPaths_eq,
      List.filter_eq_nil_iff.mpr (fun p hp => by simp [hg p hp]), List.map_nil]

/-- The entry stored for the spec's `"home"` example registration. -/
def pHome : PathReg.Path :=
  { path := homeFn, label := "Home", navs := ["main"], group := none }

/-- The entry stored for the spec's `"profile"` example registration. -/
def pProfile : PathReg.Path :=
  { path := profileFn, label := "Profile", navs := ["main"], group := some "user" }

/-- The spec's example scenario: register `"home"` then `"profile"`. -/
def exampleState : PathReg.Paths :=
  PathReg.registerPath (PathReg.registerPath [] "home" homeFn "Home" ["main"] none)
    "profile" profileFn "Profile" ["main"] (some "user")

/-- Concrete witness data for the nav-filtering theorem. -/
theorem extractNavLinks_filter_correct_witness :
    (∃ p, p ∈ PathReg.objectValues exampleState ∧ "main" ∈ p.navs ∧ p.navs ≠ [] ∧
      PathReg.toNavLink pHome = PathReg.toNavLink p) ∧
    PathReg.extractNavLinks exampleState "side" = [] :=
  ⟨(extractNavLinks_filter_correct exampleState "main").2.1 (PathReg.toNavLink pHome)
      (List.Mem.head _),
    (extractNavLinks_filter_correct exampleState "side").2.2 (by decide)⟩

/-- Concrete witness data for the group-filtering theorem. -/
theorem extractGroupPaths_filter_correct_witness :
    (∃ p, p ∈ PathReg.objectValues exampleState ∧ p.group = some "user" ∧
      PathReg.toNavLink pProfile = PathReg.toNavLink p) ∧
    ¬ (pHome.group = some "") ∧
    PathReg.extractGroupPaths exampleState "zzz" = [] :=
  ⟨(extractGroupPaths_filter_correct exampleState "user").2.1 (PathReg.toNavLink pProfile)
      (List.Mem.head _),
    (extractGroupPaths_filter_correct exampleState "").2.2.1 pHome (List.Mem.head _) rfl "",
    (extractGroupPaths_filter_correct exampleState "zzz").2.2.2 (by decide)⟩

/-- C4.  Keys stay pairwise distinct under registration, and registering the
same key twice leaves a single binding reflecting only the second
registration — `getPath` sees the second data and `getPaths` holds exactly
one entry under the key. -/
theorem register_overwrite_unique_key (st : PathReg.Paths) (k : String)
    (f1 f2 : PathFunction) (l1 l2 : String) (n1 n2 : List String) (g1 g2 : Option String)
    (h : PathReg.KeysNodup st) :
    PathReg.KeysNodup (PathReg.registerPath st k f1 l1 n1 g1) ∧
    PathReg.getPath
        (PathReg.registerPath (PathReg.registerPath st k f1 l1 n1 g1) k f2 l2 n2 g2) k
      = some { path := f2, label := l2, group := g2 } ∧
    (PathReg.getPaths
        (PathReg.registerPath (PathReg.registerPath st k f1 l1 n1 g1) k f2 l2 n2 g2)).countP
        (fun p => decide (p.1 = k)) = 1 := by
  refine ⟨keys_setKey_nodup st k _ h, ?_, ?_⟩
  · unfold PathReg.getPath PathReg.registerPath
    rw [lookupKey_setKey_self]
    rfl
  · unfold PathReg.getPaths PathReg.registerPath
    exact countP_setKey_eq_one _ k _ (keys_setKey_nodup st k _ h)

/-- Concrete witness data for the overwrite theorem. -/
theorem register_overwrite_unique_key_witness :
    PathReg.KeysNodup (PathReg.registerPath [] "home" homeFn "Home" ["main"] none) ∧
    PathReg.getPath
        (PathReg.registerPath (PathReg.registerPath [] "home" homeFn "Home" ["main"] none)
          "home" profileFn "Home2" [] (some "g")) "home"
      = some { path := profileFn, label := "Home2", group := some "g" } ∧
    (PathReg.getPaths
        (PathReg.registerPath (PathReg.registerPath [] "home" homeFn "Home" ["main"] none)
          "home" profileFn "Home2" [] (some "g"))).countP
        (fun p => decide (p.1 = "home")) = 1 :=
  register_overwrite_unique_key [] "home" homeFn profileFn "Home" "Home2" ["main"] []
    none (some "g") List.nodup_nil

/-- C8.  Both `extractNavLinks` and `extractGroupPaths` return the
projection, in the iteration order of the underlying mapping, of the matching
entries — no sorting by label or key — so the order is deterministic for a
given registration order; on the spec's example scenario
`extractNavLinks("main")` yields the views labelled `"Home"` then `"Profile"`
in registration order and `extractGroupPaths("user")` yields the view
labelled `"Profile"`. -/
theorem extract_order_deterministic (st : PathReg.Paths) (n g : String) :
    PathReg.extractNavLinks st n
      = ((PathReg.objectValues st).filter (fun p => decide (n ∈ p.navs))).map
          PathReg.toNavLink ∧
    PathReg.extractGroupPaths st g
      = ((PathReg.objectValues st).filter (fun p => decide (p.group = some g))).map
          PathReg.toNavLink ∧
    (PathReg.extractNavLinks exampleState "main").map (fun v => v.label)
      = ["Home", "Profile"] ∧
    (PathReg.extractGroupPaths exampleState "user").map (fun v => v.label)
      = ["Profile"] :=
  ⟨PathReg.extractNavLinks_eq st n, PathReg.extractGroupPaths_eq st g, by decide, by decide⟩

/-- C10.  Registration never checks the key: the empty-string key registers
without fault and then behaves like any other key, in `getPath`,
`extractNavLinks`, `extractGroupPaths` and `getPaths` alike. -/
theorem empty_key_register_works (st : PathReg.Paths) (fn : PathFunction) (label : String)
    (navs : List String) (group : Option String) :
    PathReg.getPath (PathReg.registerPath st "" fn label navs group) ""
      = some { path := fn, label := label, group := group } ∧
    (∀ n, n ∈ navs →
      ({ path := fn, label := label, group := group } : NavLink)
        ∈ PathReg.extractNavLinks (PathReg.registerPath st "" fn label navs group) n) ∧
    (∀ g, group = some g →
      ({ path := fn, label := label, group := group } : NavLink)
        ∈ PathReg.extractGroupPaths (PathReg.registerPath st "" fn label navs group) g) ∧
    ("", ({ path := fn, label := label, navs := navs, group := group } : PathReg.Path))
      ∈ PathReg.getPaths (PathReg.registerPath st "" fn label navs group) := by
  have hmem :
      ("", ({ path := fn, label := label, navs := navs, group := group } : PathReg.Path))
        ∈ PathReg.registerPath st "" fn label navs group := mem_setKey_self st "" _
  have hval := mem_objectValues hmem
  refine ⟨?_, ?_, ?_, hmem⟩
  · unfold PathReg.getPath PathReg.registerPath
    rw [lookupKey_setKey_self]
    rfl
  · intro n hn
    rw [PathReg.extractNavLinks_eq]
    exact List.mem_map_of_mem _ (List.mem_filter.mpr ⟨hval, by simpa using hn⟩)
  · intro g hg
    rw [PathReg.extractGroupPaths_eq]
    exact List.mem_map_of_mem _ (List.mem_filter.mpr ⟨hval, by simp [hg]⟩)

/-- Concrete witness data for the empty-key theorem. -/
theorem empty_key_register_works_witness :
    PathReg.getPath (PathReg.registerPath [] "" homeFn "E" ["main"] (some "user")) ""
      = some { path := homeFn, label := "E", group := some "user" } ∧
    ({ path := homeFn, label := "E", group := some "user" } : NavLink)
      ∈ PathReg.extractNavLinks
          (PathReg.registerPath [] "" homeFn "E" ["main"] (some "user")) "main" ∧
    ({ path := homeFn, label := "E", group := some "user" } : NavLink)
      ∈ PathReg.extractGroupPaths
          (PathReg.registerPath [] "" homeFn "E" ["main"] (some "user")) "user" ∧
    ("", ({ path := homeFn, label := "E", navs := ["main"], group := some "user" } :
        PathReg.Path))
      ∈ PathReg.getPaths (PathReg.registerPath [] "" homeFn "E" ["main"] (some "user")) := by
  have h := empty_key_register_works [] homeFn "E" ["main"] (some "user")
  exact ⟨h.1, h.2.1 "main" (by decide), h.2.2.1 "user" rfl, h.2.2.2⟩

/-- Concrete witness data for the miss-behaviour theorem. -/
theorem miss_behavior_no_fault_witness :
    PathReg.getPath (PathReg.registerPath [] "home" homeFn "Home" ["main"] none)
      "nonexistent" = none ∧
    PathReg.extractNavLinks (PathReg.registerPath [] "home" homeFn "Home" ["main"] none)
      "nonexistent-nav" = [] ∧
    PathReg.extractGroupPaths (PathReg.registerPath [] "home" homeFn "Home" ["main"] none)
      "nonexistent-group" = [] :=
  miss_behavior_no_fault _ _ _ _ (by decide) (by decide) (by decide)

/-! Generic lemmas about in-place heap updates. -/

lemma lookupKey_updateAt_ne {κ α : Type} [DecidableEq κ] (m : List (κ × α)) (k : κ) (v : α)
    (k' : κ) (h : k' ≠ k) : lookupKey (updateAt m k v) k' = lookupKey m k' := by
  induction m with
  | nil => rfl
  | cons p rest ih =>
    by_cases hp : p.1 = k
    · rw [updateAt, List.map_cons, if_pos hp,
        lookupKey_cons_ne _ _ _ (fun hkk => h hkk.symm),
        lookupKey_cons_ne _ _ _ (fun hpk => h (hp ▸ hpk).symm)]
      exact ih
    · by_cases hpk : p.1 = k'
      · rw [updateAt, List.map_cons, if_neg hp, lookupKey_cons_eq _ _ _ hpk,
          lookupKey_cons_eq _ _ _ hpk]
      · rw [updateAt, List.map_cons, if_neg hp, lookupKey_cons_ne _ _ _ hpk,
          lookupKey_cons_ne _ _ _ hpk]
        exact ih

lemma lookupKey_updateAt_self {κ α : Type} [DecidableEq κ] (m : List (κ × α)) (k : κ) (v : α)
    (h : (lookupKey m k).isSome = true) : lookupKey (updateAt m k v) k = some v := by
  induction m with
  | nil => simp [lookupKey] at h
  | cons p rest ih =>
    by_cases hp : p.1 = k
    · rw [updateAt, List.map_cons, if_pos hp, lookupKey_cons_eq _ _ _ rfl]
    · rw [lookupKey_cons_ne _ _ _ hp] at h
      rw [updateAt, List.map_cons, if_neg hp, lookupKey_cons_ne _ _ _ hp]
      exact ih h

lemma keys_updateAt {κ α : Type} [DecidableEq κ] (m : List (κ × α)) (k : κ) (v : α) :
    (updateAt m k v).map (fun p => p.1) = m.map (fun p => p.1) := by
  induction m with
  | nil => rfl
  | cons p rest ih =>
    by_cases hp : p.1 = k
    · show ((if p.1 = k then (k, v) else p).1 :: (updateAt rest k v).map (fun p => p.1))
        = p.1 :: rest.map (fun p => p.1)
      rw [if_pos hp, ih, hp]
    · show ((if p.1 = k then (k, v) else p).1 :: (updateAt rest k v).map (fun p => p.1))
        = p.1 :: rest.map (fun p => p.1)
      rw [if_neg hp, ih]

/-- Elements produced by `setKey` are the new binding or old bindings. -/
lemma mem_setKey {κ α : Type} [DecidableEq κ] (m : List (κ × α)) (k : κ) (v : α)
    (p : κ × α) (h : p ∈ setKey m k v) : p = (k, v) ∨ p ∈ m := by
  induction m with
  | nil => rw [setKey] at h; rcases List.mem_singleton.mp h with h'; exact Or.inl h'
  | cons q rest ih =>
    by_cases hq : q.1 = k
    · rw [setKey, if_pos hq] at h
      rcases List.mem_cons.mp h with h' | h'
      · exact Or.inl h'
      · exact Or.inr (List.mem_cons_of_mem _ h')
    · rw [setKey, if_neg hq] at h
      rcases List.mem_cons.mp h with h' | h'
      · exact Or.inr (h' ▸ List.mem_cons_self _ _)
      · rcases ih h' with h'' | h''
        · exact Or.inl h''
        · exact Or.inr (List.mem_cons_of_mem _ h'')

namespace RefSem

/-- A reference into the heap. -/
abbrev Ref := Nat

/-- A heap-allocated object of entry or view shape.  `navs = some _` means the
object carries a `"navs"` member (a stored path entry does); `navs = none`
means the member is absent (the view literals built by the queries have no
`navs`).  `path` and `label` members are always present. -/
structure EntryObj where
  path : PathFunction
  label : String
  navs : Option (List String)
  group : Option String

/-- A heap-allocated plain object used as a string-keyed map of references,
bindings in property-creation order. -/
abbrev MapObj := List (String × Ref)

/-- The program state: a heap of entry/view objects, a heap of map objects,
the fresh-reference counter, and the reference held by the private class
field `paths`. -/
structure State where
  entryHeap : List (Ref × EntryObj)
  mapHeap : List (Ref × MapObj)
  next : Ref
  pathsRef : Ref

/-- The freshly constructed registry: `paths = {}`. -/
def emptyState : State :=
  { entryHeap := [], mapHeap := [(0, [])], next := 1, pathsRef := 0 }

/-- Dereference an entry/view object (`undefined` when dangling). -/
def readEntry (st : State) (r : Ref) : Option EntryObj := lookupKey st.entryHeap r

/-- Dereference a map object. -/
def readMap (st : State) (r : Ref) : MapObj := (lookupKey st.mapHeap r).getD []

/-- Overwrite the object stored at reference `r` (a field assignment writes
the whole updated record). -/
def writeEntry (st : State) (r : Ref) (o : EntryObj) : State :=
  { st with entryHeap := updateAt st.entryHeap r o }

/-- Overwrite the map object stored at reference `r`. -/
def writeMapAt (st : State) (r : Ref) (m : MapObj) : State :=
  { st with mapHeap := updateAt st.mapHeap r m }

/-- Allocate a fresh entry/view object. -/
def allocEntry (st : State) (o : EntryObj) : State × Ref :=
  ({ st with entryHeap := (st.next, o) :: st.entryHeap, next := st.next + 1 }, st.next)

/-- Allocate a fresh map object. -/
def allocMap (st : State) (m : MapObj) : State × Ref :=
  ({ st with mapHeap := (st.next, m) :: st.mapHeap, next := st.next + 1 }, st.next)

/-- The duck-typed `isPath` check: `undefined` is falsy; an object here always
has `"path"` and `"label"` members, so the check reduces to the presence of
the `"navs"` member. -/
def isPath (obj : Option EntryObj) : Bool :=
  match obj with
  | some o => o.navs.isSome
  | none => false

/-- `filter(this.isPath)` fused with the type narrowing it performs in TS. -/
def checkPath (obj : Option EntryObj) : Option EntryObj :=
  match obj with
  | some o => if o.navs.isSome then some o else none
  | none => none

/-- `registerPath`: allocate the object literal
`{ path, label, navs, group }`, then point `this.paths[key]` at it. -/
def registerPath (st : State) (key : String) (fn : PathFunction) (label : String)
    (navs : List String) (group : Option String) : State :=
  let a := allocEntry st { path := fn, label := label, navs := some navs, group := group }
  writeMapAt a.1 a.1.pathsRef (setKey (readMap a.1 a.1.pathsRef) key a.2)

/-- `Object.values(this.paths).filter(this.isPath)`: the stored entry objects
in iteration order that pass the duck-type check. -/
def storedValues (st : State) : List EntryObj :=
  ((jsKeyOrder (readMap st st.pathsRef)).map (fun p => readEntry st p.2)).filterMap checkPath

/-- The view literal `{ path, label, group }` — no `navs` member. -/
def viewOf (o : EntryObj) : EntryObj :=
  { path := o.path, label := o.label, navs := none, group := o.group }

/-- The `.map(pathObj => ({...}))` of the source allocates one fresh view
literal per matching entry, left to right. -/
def allocViews : State → List EntryObj → State × List Ref
  | st, [] => (st, [])
  | st, o :: rest =>
    let a := allocEntry st (viewOf o)
    let b := allocViews a.1 rest
    (b.1, a.2 :: b.2)

/-- `extractNavLinks`, reference level: filter the stored values on `navs`
membership, then allocate the view literals. -/
def extractNavLinks (st : State) (navName : String) : State × List Ref :=
  allocViews st ((storedValues st).filter (fun o => decide (navName ∈ o.navs.getD [])))

/-- `extractGroupPaths`, reference level: filter on `group === groupName`. -/
def extractGroupPaths (st : State) (groupName : String) : State × List Ref :=
  allocViews st ((storedValues st).filter (fun o => decide (o.group = some groupName)))

/-- `getPath`, reference level: read `this.paths[key]`, duck-check it, and on
success allocate the view literal. -/
def getPath (st : State) (key : String) : State × Option Ref :=
  match checkPath ((lookupKey (readMap st st.pathsRef) key).bind (readEntry st)) with
  | some o =>
    let a := allocEntry st (viewOf o)
    (a.1, some a.2)
  | none => (st, none)

/-- `getPaths()`: `{ ...this.paths }` — allocate a NEW top-level map object
holding the SAME bindings, i.e. the same entry references. -/
def getPaths (st : State) : State × Ref :=
  allocMap st (readMap st st.pathsRef)

/-- Caller-side mutation `obj.label = l` through a reference. -/
def setLabelAt (st : State) (r : Ref) (l : String) : State :=
  match readEntry st r with
  | some o => writeEntry st r { o with label := l }
  | none => st

/-- Caller-side mutation `m[k] = r'` on a map object (snapshot tampering). -/
def mapSetAt (st : State) (r : Ref) (k : String) (v : Ref) : State :=
  writeMapAt st r (setKey (readMap st r) k v)

/-- Caller-side mutation `delete m[k]` on a map object. -/
def mapDeleteAt (st : State) (r : Ref) (k : String) : State :=
  writeMapAt st r ((readMap st r).filter (fun p => !(decide (p.1 = k))))

/-- The observable content of a view object: its three members. -/
def mkView (o : EntryObj) : NavLink :=
  { path := o.path, label := o.label, group := o.group }

/-- What a `getPath(key)` call would return, read off without allocating. -/
def obsGetPath (st : State) (key : String) : Option NavLink :=
  (checkPath ((lookupKey (readMap st st.pathsRef) key).bind (readEntry st))).map mkView

/-- What an `extractNavLinks(n)` call would return, read off without
allocating. -/
def obsNavLinks (st : State) (n : String) : List NavLink :=
  ((storedValues st).filter (fun o => decide (n ∈ o.navs.getD []))).map mkView

/-- What an `extractGroupPaths(g)` call would return. -/
def obsGroupPaths (st : State) (g : String) : List NavLink :=
  ((storedValues st).filter (fun o => decide (o.group = some g))).map mkView

/-- Query equivalence: every subsequent `getPath`, `extractNavLinks` and
`extractGroupPaths` call observes the same result in both states. -/
def obsEq (s t : State) : Prop :=
  (∀ k, obsGetPath s k = obsGetPath t k) ∧
  (∀ n, obsNavLinks s n = obsNavLinks t n) ∧
  (∀ g, obsGroupPaths s g = obsGroupPaths t g)

/-- Well-formedness: `paths` points at an allocated map object, every
allocated reference is below the fresh counter, and every binding of the
registry map passes the duck-type check (it references an allocated object
carrying a `navs` member). -/
def WF (st : State) : Prop :=
  st.pathsRef < st.next ∧
  (lookupKey st.mapHeap st.pathsRef).isSome = true ∧
  (∀ p ∈ st.entryHeap, p.1 < st.next) ∧
  (∀ p ∈ st.mapHeap, p.1 < st.next) ∧
  (∀ p ∈ readMap st st.pathsRef, isPath (readEntry st p.2) = true)

instance (st : State) : Decidable (WF st) := by
  unfold WF
  infer_instance

/-- States reachable from a fresh registry through the public interface. -/
inductive Reachable : State → Prop where
  | init : Reachable emptyState
  | register (st : State) (key : String) (fn : PathFunction) (label : String)
      (navs : List String) (group : Option String) :
      Reachable st → Reachable (registerPath st key fn label navs group)
  | navLinks (st : State) (n : String) : Reachable st → Reachable (extractNavLinks st n).1
  | groupPaths (st : State) (g : String) : Reachable st → Reachable (extractGroupPaths st g).1
  | lookup (st : State) (k : String) : Reachable st → Reachable (getPath st k).1
  | snapshot (st : State) : Reachable st → Reachable (getPaths st).1

end RefSem

namespace RefSem

/-! Small frame lemmas about reads over writes and allocations. -/

lemma readMap_writeEntry (st : State) (r : Ref) (o : EntryObj) (x : Ref) :
    readMap (writeEntry st r o) x = readMap st x := rfl

lemma readEntry_writeEntry_ne (st : State) (r : Ref) (o : EntryObj) (r' : Ref)
    (h : r' ≠ r) : readEntry (writeEntry st r o) r' = readEntry st r' :=
  lookupKey_updateAt_ne st.entryHeap r o r' h

lemma readMap_allocEntry (st : State) (o : EntryObj) (x : Ref) :
    readMap (allocEntry st o).1 x = readMap st x := rfl

lemma readEntry_allocEntry_lt (st : State) (o : EntryObj) (r : Ref) (h : r < st.next) :
    readEntry (allocEntry st o).1 r = readEntry st r :=
  lookupKey_cons_ne (st.next, o) st.entryHeap r (ne_of_gt h)

lemma readEntry_allocMap (st : State) (m : MapObj) (r : Ref) :
    readEntry (allocMap st m).1 r = readEntry st r := rfl

lemma readMap_allocMap_lt (st : State) (m : MapObj) (r : Ref) (h : r < st.next) :
    readMap (allocMap st m).1 r = readMap st r := by
  unfold readMap
  rw [show (allocMap st m).1.mapHeap = (st.next, m) :: st.mapHeap from rfl,
    lookupKey_cons_ne (st.next, m) st.mapHeap r (ne_of_gt h)]

lemma readMap_writeMapAt_ne (st : State) (r : Ref) (m : MapObj) (x : Ref) (h : x ≠ r) :
    readMap (writeMapAt st r m) x = readMap st x := by
  unfold readMap
  rw [show (writeMapAt st r m).mapHeap = updateAt st.mapHeap r m from rfl,
    lookupKey_updateAt_ne st.mapHeap r m x h]

lemma readEntry_writeMapAt (st : State) (r : Ref) (m : MapObj) (x : Ref) :
    readEntry (writeMapAt st r m) x = readEntry st x := rfl

/-! The duck-type check on well-formed data. -/

lemma isPath_isSome (obj : Option EntryObj) (h : isPath obj = true) :
    obj.isSome = true := by
  cases obj with
  | none => simp [isPath] at h
  | some o => rfl

lemma checkPath_of_isPath (obj : Option EntryObj) (h : isPath obj = true) :
    checkPath obj = obj := by
  cases obj with
  | none => simp [isPath] at h
  | some o =>
    show (if o.navs.isSome = true then some o else none) = some o
    rw [if_pos (show o.navs.isSome = true from h)]

/-- A reference whose dereference succeeds lies below the fresh counter. -/
lemma readEntry_isSome_lt (st : State) (r : Ref)
    (hb : ∀ p ∈ st.entryHeap, p.1 < st.next)
    (hs : (readEntry st r).isSome = true) : r < st.next := by
  unfold readEntry lookupKey at hs
  cases hf : st.entryHeap.find? (fun p => decide (p.1 = r)) with
  | none => rw [hf] at hs; simp at hs
  | some q =>
    have hq := List.mem_of_find?_eq_some hf
    have hpq := List.find?_some hf
    have hqr : q.1 = r := of_decide_eq_true hpq
    exact hqr ▸ hb q hq

/-- Every registry binding of a well-formed state references an allocated
object. -/
lemma binding_lt_aux (st : State)
    (h3 : ∀ p ∈ st.entryHeap, p.1 < st.next)
    (h5 : ∀ p ∈ readMap st st.pathsRef, isPath (readEntry st p.2) = true)
    (p : String × Ref) (hp : p ∈ readMap st st.pathsRef) : p.2 < st.next :=
  readEntry_isSome_lt st p.2 h3 (isPath_isSome _ (h5 p hp))

lemma binding_lt (st : State) (hwf : WF st) (p : String × Ref)
    (hp : p ∈ readMap st st.pathsRef) : p.2 < st.next :=
  binding_lt_aux st hwf.2.2.1 hwf.2.2.2.2 p hp

/-- A successful string lookup exposes a member binding. -/
lemma lookupKey_mem {κ α : Type} [DecidableEq κ] (m : List (κ × α)) (k : κ) (v : α)
    (h : lookupKey m k = some v) : (k, v) ∈ m := by
  unfold lookupKey at h
  cases hf : m.find? (fun p => decide (p.1 = k)) with
  | none => rw [hf] at h; exact absurd h (by simp)
  | some q =>
    rw [hf] at h
    have hq := List.mem_of_find?_eq_some hf
    have hpq := List.find?_some hf
    have hqk : q.1 = k := of_decide_eq_true hpq
    have hqv : q.2 = v := by simpa using h
    have hqe : q = (k, v) := Prod.ext hqk hqv
    exact hqe ▸ hq

end RefSem

namespace RefSem

/-! Lemmas about the view-allocation loop. -/

lemma allocViews_mapHeap (st : State) (l : List EntryObj) :
    (allocViews st l).1.mapHeap = st.mapHeap := by
  induction l generalizing st with
  | nil => rfl
  | cons o rest ih => exact ih (allocEntry st (viewOf o)).1

lemma allocViews_pathsRef (st : State) (l : List EntryObj) :
    (allocViews st l).1.pathsRef = st.pathsRef := by
  induction l generalizing st with
  | nil => rfl
  | cons o rest ih => exact ih (allocEntry st (viewOf o)).1

lemma allocViews_next_ge (st : State) (l : List EntryObj) :
    st.next ≤ (allocViews st l).1.next := by
  induction l generalizing st with
  | nil => exact le_refl _
  | cons o rest ih => exact le_trans (Nat.le_succ _) (ih (allocEntry st (viewOf o)).1)

lemma readEntry_allocViews_lt (st : State) (l : List EntryObj) (r : Ref)
    (h : r < st.next) : readEntry (allocViews st l).1 r = readEntry st r := by
  induction l generalizing st with
  | nil => rfl
  | cons o rest ih =>
    have h1 : r < (allocEntry st (viewOf o)).1.next := lt_trans h (Nat.lt_succ_self _)
    exact (ih (allocEntry st (viewOf o)).1 h1).trans (readEntry_allocEntry_lt st (viewOf o) r h)

lemma allocViews_refs_ge (st : State) (l : List EntryObj) :
    ∀ r ∈ (allocViews st l).2, st.next ≤ r := by
  induction l generalizing st with
  | nil => intro r hr; exact absurd hr (List.not_mem_nil r)
  | cons o rest ih =>
    intro r hr
    rcases List.mem_cons.mp hr with h | h
    · exact le_of_eq h.symm
    · exact le_trans (Nat.le_succ _) (ih (allocEntry st (viewOf o)).1 r h)

/-! Observations depend only on the registry map and the entries it
references. -/

lemma bind_readEntry_congr (s t : State) (M : MapObj) (k : String)
    (he : ∀ p ∈ M, readEntry s p.2 = readEntry t p.2) :
    (lookupKey M k).bind (readEntry s) = (lookupKey M k).bind (readEntry t) := by
  unfold lookupKey
  cases hf : M.find? (fun p => decide (p.1 = k)) with
  | none => rfl
  | some q =>
    exact he q (List.mem_of_find?_eq_some hf)

lemma obsGetPath_congr (s t : State)
    (hm : readMap s s.pathsRef = readMap t t.pathsRef)
    (he : ∀ p ∈ readMap t t.pathsRef, readEntry s p.2 = readEntry t p.2)
    (k : String) : obsGetPath s k = obsGetPath t k := by
  unfold obsGetPath
  rw [hm, bind_readEntry_congr s t _ k he]

lemma storedValues_congr (s t : State)
    (hm : readMap s s.pathsRef = readMap t t.pathsRef)
    (he : ∀ p ∈ readMap t t.pathsRef, readEntry s p.2 = readEntry t p.2) :
    storedValues s = storedValues t := by
  unfold storedValues
  rw [hm]
  have hmap : (jsKeyOrder (readMap t t.pathsRef)).map (fun p => readEntry s p.2)
      = (jsKeyOrder (readMap t t.pathsRef)).map (fun p => readEntry t p.2) :=
    List.map_congr_left (fun p hp => he p ((jsKeyOrder_perm _).mem_iff.mp hp))
  rw [hmap]

/-- Two states with the same registry map and the same entries under its
bindings are query-equivalent. -/
lemma obsEq_of_reads (s t : State)
    (hm : readMap s s.pathsRef = readMap t t.pathsRef)
    (he : ∀ p ∈ readMap t t.pathsRef, readEntry s p.2 = readEntry t p.2) :
    obsEq s t := by
  refine ⟨obsGetPath_congr s t hm he, ?_, ?_⟩
  · intro n
    unfold obsNavLinks
    rw [storedValues_congr s t hm he]
  · intro g
    unfold obsGroupPaths
    rw [storedValues_congr s t hm he]

/-- Writing any object at a reference the registry does not own leaves every
query observation intact. -/
lemma obsEq_writeEntry_of_fresh (st st' : State) (r : Ref) (o : EntryObj)
    (hwf : WF st)
    (hpaths : st'.pathsRef = st.pathsRef)
    (hmaps : st'.mapHeap = st.mapHeap)
    (hent : ∀ x, x < st.next → readEntry st' x = readEntry st x)
    (hr : st.next ≤ r) :
    obsEq (writeEntry st' r o) st := by
  apply obsEq_of_reads
  · show readMap st' (writeEntry st' r o).pathsRef = readMap st st.pathsRef
    unfold readMap
    rw [show (writeEntry st' r o).pathsRef = st'.pathsRef from rfl, hpaths, hmaps]
  · intro p hp
    have hlt : p.2 < st.next := binding_lt st hwf p hp
    have hne : p.2 ≠ r := Nat.ne_of_lt (lt_of_lt_of_le hlt hr)
    rw [readEntry_writeEntry_ne st' r o p.2 hne]
    exact hent p.2 hlt

end RefSem

namespace RefSem

/-! Preservation of well-formedness by every operation. -/

lemma wf_allocEntry (st : State) (o : EntryObj) (h : WF st) : WF (allocEntry st o).1 := by
  obtain ⟨h1, h2, h3, h4, h5⟩ := h
  refine ⟨Nat.lt_succ_of_lt h1, h2, ?_, ?_, ?_⟩
  · intro p hp
    have hp' : p ∈ (st.next, o) :: st.entryHeap := hp
    rcases List.mem_cons.mp hp' with hq | hq
    · show p.1 < st.next + 1
      rw [hq]
      exact Nat.lt_succ_self _
    · exact Nat.lt_succ_of_lt (h3 p hq)
  · intro p hp
    exact Nat.lt_succ_of_lt (h4 p hp)
  · intro p hp
    have hp' : p ∈ readMap st st.pathsRef := hp
    have hlt : p.2 < st.next := binding_lt_aux st h3 h5 p hp'
    have hre : readEntry (allocEntry st o).1 p.2 = readEntry st p.2 :=
      readEntry_allocEntry_lt st o p.2 hlt
    rw [hre]
    exact h5 p hp'

lemma wf_allocMap (st : State) (m : MapObj) (h : WF st) : WF (allocMap st m).1 := by
  obtain ⟨h1, h2, h3, h4, h5⟩ := h
  have hMap : readMap (allocMap st m).1 st.pathsRef = readMap st st.pathsRef :=
    readMap_allocMap_lt st m st.pathsRef h1
  refine ⟨Nat.lt_succ_of_lt h1, ?_, ?_, ?_, ?_⟩
  · show (lookupKey ((st.next, m) :: st.mapHeap) st.pathsRef).isSome = true
    rw [lookupKey_cons_ne (st.next, m) st.mapHeap st.pathsRef (ne_of_gt h1)]
    exact h2
  · intro p hp
    exact Nat.lt_succ_of_lt (h3 p hp)
  · intro p hp
    have hp' : p ∈ (st.next, m) :: st.mapHeap := hp
    rcases List.mem_cons.mp hp' with hq | hq
    · show p.1 < st.next + 1
      rw [hq]
      exact Nat.lt_succ_self _
    · exact Nat.lt_succ_of_lt (h4 p hq)
  · intro p hp
    have hp' : p ∈ readMap st st.pathsRef := by rw [← hMap]; exact hp
    have hre : readEntry (allocMap st m).1 p.2 = readEntry st p.2 := rfl
    rw [hre]
    exact h5 p hp'

lemma wf_register (st : State) (key : String) (fn : PathFunction) (label : String)
    (navs : List String) (group : Option String) (h : WF st) :
    WF (registerPath st key fn label navs group) := by
  obtain ⟨h1, h2, h3, h4, h5⟩ := h
  have hM2 : readMap (registerPath st key fn label navs group) st.pathsRef
      = setKey (readMap st st.pathsRef) key st.next := by
    show (lookupKey (updateAt st.mapHeap st.pathsRef
        (setKey (readMap st st.pathsRef) key st.next)) st.pathsRef).getD [] = _
    rw [lookupKey_updateAt_self st.mapHeap st.pathsRef _ h2]
    rfl
  refine ⟨Nat.lt_succ_of_lt h1, ?_, ?_, ?_, ?_⟩
  · show (lookupKey (updateAt st.mapHeap st.pathsRef
        (setKey (readMap st st.pathsRef) key st.next)) st.pathsRef).isSome = true
    rw [lookupKey_updateAt_self st.mapHeap st.pathsRef _ h2]
    rfl
  · intro p hp
    have hp' : p ∈ (st.next, (⟨fn, label, some navs, group⟩ : EntryObj)) :: st.entryHeap :=
      hp
    rcases List.mem_cons.mp hp' with hq | hq
    · show p.1 < st.next + 1
      rw [hq]
      exact Nat.lt_succ_self _
    · exact Nat.lt_succ_of_lt (h3 p hq)
  · intro p hp
    have hp' : p ∈ updateAt st.mapHeap st.pathsRef
        (setKey (readMap st st.pathsRef) key st.next) := hp
    rcases List.mem_map.mp hp' with ⟨q, hq, hgq⟩
    show p.1 < st.next + 1
    by_cases hqp : q.1 = st.pathsRef
    · rw [← hgq, if_pos hqp]
      exact Nat.lt_succ_of_lt h1
    · rw [← hgq, if_neg hqp]
      exact Nat.lt_succ_of_lt (h4 q hq)
  · intro p hp
    have hp' : p ∈ setKey (readMap st st.pathsRef) key st.next := by
      rw [← hM2]
      exact hp
    rcases mem_setKey _ _ _ p hp' with hq | hq
    · have hre : readEntry (registerPath st key fn label navs group) p.2
          = some (⟨fn, label, some navs, group⟩ : EntryObj) := by
        rw [hq]
        exact lookupKey_cons_eq (st.next, _) st.entryHeap st.next rfl
      rw [hre]
      rfl
    · have hlt : p.2 < st.next := binding_lt_aux st h3 h5 p hq
      have hre : readEntry (registerPath st key fn label navs group) p.2
          = readEntry st p.2 :=
        lookupKey_cons_ne (st.next, _) st.entryHeap p.2 (ne_of_gt hlt)
      rw [hre]
      exact h5 p hq

lemma wf_getPath (st : State) (k : String) (h : WF st) : WF (getPath st k).1 := by
  unfold getPath
  cases hc : checkPath ((lookupKey (readMap st st.pathsRef) k).bind (readEntry st)) with
  | some o => exact wf_allocEntry st (viewOf o) h
  | none => exact h

lemma wf_allocViews (st : State) (l : List EntryObj) (h : WF st) :
    WF (allocViews st l).1 := by
  induction l generalizing st with
  | nil => exact h
  | cons o rest ih => exact ih (allocEntry st (viewOf o)).1 (wf_allocEntry st (viewOf o) h)

lemma wf_extractNavLinks (st : State) (n : String) (h : WF st) :
    WF (extractNavLinks st n).1 :=
  wf_allocViews st _ h

lemma wf_extractGroupPaths (st : State) (g : String) (h : WF st) :
    WF (extractGroupPaths st g).1 :=
  wf_allocViews st _ h

lemma wf_getPaths (st : State) (h : WF st) : WF (getPaths st).1 :=
  wf_allocMap st _ h

lemma wf_emptyState : WF emptyState := by decide

/-- Every state reachable through the public interface is well-formed. -/
lemma reachable_wf (st : State) (h : Reachable st) : WF st := by
  induction h with
  | init => exact wf_emptyState
  | register st' key fn label navs group _ ih => exact wf_register st' key fn label navs group ih
  | navLinks st' n _ ih => exact wf_extractNavLinks st' n ih
  | groupPaths st' g _ ih => exact wf_extractGroupPaths st' g ih
  | lookup st' k _ ih => exact wf_getPath st' k ih
  | snapshot st' _ ih => exact wf_getPaths st' ih

end RefSem

namespace RefSem

/-- The snapshot returned by `getPaths` holds exactly the registry's own
bindings — the same keys mapped to the SAME entry references. -/
lemma readMap_getPaths_snap (st : State) :
    readMap (getPaths st).1 (getPaths st).2 = readMap st st.pathsRef := by
  show (lookupKey ((st.next, readMap st st.pathsRef) :: st.mapHeap) st.next).getD []
      = readMap st st.pathsRef
  rw [lookupKey_cons_eq (st.next, readMap st st.pathsRef) st.mapHeap st.next rfl]
  rfl

/-- State after the example registration `register("home", homeFn, "Home",
["main"])` on a fresh registry. -/
def cexSt0 : State := registerPath emptyState "home" homeFn "Home" ["main"] none

/-- State after additionally taking the `getPaths()` snapshot. -/
def cexSt1 : State := (getPaths cexSt0).1

/-- The reference of the snapshot map object. -/
def cexSnap : Ref := (getPaths cexSt0).2

/-- An arbitrary overwriting object used to mutate a returned view. -/
def mutObj : EntryObj := { path := homeFn, label := "X", navs := none, group := none }

end RefSem

/-- C6 (amended).  The views returned by `getPath`, `extractNavLinks` and
`extractGroupPaths` are freshly allocated copies: overwriting any field of a
returned view changes no subsequent query observation.  The mapping returned
by `getPaths`, however, is only a top-level copy: it binds the SAME entry
references the registry holds, so entries inside it are shared, not copies. -/
theorem views_copy_getPaths_shallow (st : RefSem.State) (key navName groupName : String)
    (h : RefSem.WF st) :
    (∀ r, (RefSem.getPath st key).2 = some r →
      ∀ o, RefSem.obsEq (RefSem.writeEntry (RefSem.getPath st key).1 r o) st) ∧
    (∀ r ∈ (RefSem.extractNavLinks st navName).2,
      ∀ o, RefSem.obsEq (RefSem.writeEntry (RefSem.extractNavLinks st navName).1 r o) st) ∧
    (∀ r ∈ (RefSem.extractGroupPaths st groupName).2,
      ∀ o, RefSem.obsEq (RefSem.writeEntry (RefSem.extractGroupPaths st groupName).1 r o) st) ∧
    RefSem.readMap (RefSem.getPaths st).1 (RefSem.getPaths st).2
      = RefSem.readMap st st.pathsRef := by
  refine ⟨?_, ?_, ?_, RefSem.readMap_getPaths_snap st⟩
  · intro r hr o
    cases hc : RefSem.checkPath ((lookupKey (RefSem.readMap st st.pathsRef) key).bind
        (RefSem.readEntry st)) with
    | none =>
      exfalso
      have hn : (RefSem.getPath st key).2 = none := by
        unfold RefSem.getPath
        rw [hc]
      rw [hn] at hr
      exact Option.noConfusion hr
    | some v =>
      have h1 : (RefSem.getPath st key).1 = (RefSem.allocEntry st (RefSem.viewOf v)).1 := by
        unfold RefSem.getPath
        rw [hc]
      have h2 : (RefSem.getPath st key).2 = some st.next := by
        unfold RefSem.getPath
        rw [hc]
        rfl
      have hrn : r = st.next := by
        rw [h2] at hr
        exact (Option.some.inj hr).symm
      rw [h1]
      refine RefSem.obsEq_writeEntry_of_fresh st _ r o h rfl rfl ?_ ?_
      · intro x hx
        exact RefSem.readEntry_allocEntry_lt st (RefSem.viewOf v) x hx
      · exact le_of_eq hrn.symm
  · intro r hr o
    have hge : st.next ≤ r :=
      RefSem.allocViews_refs_ge st
        ((RefSem.storedValues st).filter (fun v => decide (navName ∈ v.navs.getD []))) r hr
    refine RefSem.obsEq_writeEntry_of_fresh st _ r o h ?_ ?_ ?_ hge
    · exact RefSem.allocViews_pathsRef st _
    · exact RefSem.allocViews_mapHeap st _
    · intro x hx
      exact RefSem.readEntry_allocViews_lt st _ x hx
  · intro r hr o
    have hge : st.next ≤ r :=
      RefSem.allocViews_refs_ge st
        ((RefSem.storedValues st).filter (fun v => decide (v.group = some groupName))) r hr
    refine RefSem.obsEq_writeEntry_of_fresh st _ r o h ?_ ?_ ?_ hge
    · exact RefSem.allocViews_pathsRef st _
    · exact RefSem.allocViews_mapHeap st _
    · intro x hx
      exact RefSem.readEntry_allocViews_lt st _ x hx

/-- Concrete witness data for the amended view-copy theorem. -/
theorem views_copy_getPaths_shallow_witness :
    RefSem.obsGetPath
        (RefSem.writeEntry (RefSem.getPath RefSem.cexSt0 "home").1 2 RefSem.mutObj) "home"
      = RefSem.obsGetPath RefSem.cexSt0 "home" ∧
    RefSem.readMap (RefSem.getPaths RefSem.cexSt0).1 (RefSem.getPaths RefSem.cexSt0).2
      = RefSem.readMap RefSem.cexSt0 RefSem.cexSt0.pathsRef := by
  have h := views_copy_getPaths_shallow RefSem.cexSt0 "home" "main" "user" (by decide)
  exact ⟨(h.1 2 (by decide) RefSem.mutObj).1 "home", h.2.2.2⟩

/-- C6 counterexample: after `register("home", ..., "Home", ...)` and
`snap := getPaths()`, the snapshot binds `"home"` to the very reference the
registry stores (reference 1); assigning `snap["home"].label = "X"` makes the
registry's own `getPath("home")` observe label `"X"` — the stored state DID
change, so the claim that entries inside the `getPaths()` result are copies
is false on the code. -/
theorem getPaths_entry_alias_counterexample :
    lookupKey (RefSem.readMap RefSem.cexSt1 RefSem.cexSnap) "home" = some 1 ∧
    (RefSem.obsGetPath RefSem.cexSt1 "home").map (fun v => v.label) = some "Home" ∧
    (RefSem.obsGetPath (RefSem.setLabelAt RefSem.cexSt1 1 "X") "home").map
      (fun v => v.label) = some "X" ∧
    ¬ (RefSem.obsGetPath (RefSem.setLabelAt RefSem.cexSt1 1 "X") "home"
        = RefSem.obsGetPath RefSem.cexSt1 "home") := by
  have hb : (RefSem.obsGetPath RefSem.cexSt1 "home").map (fun v => v.label)
      = some "Home" := by decide
  have ha : (RefSem.obsGetPath (RefSem.setLabelAt RefSem.cexSt1 1 "X") "home").map
      (fun v => v.label) = some "X" := by decide
  refine ⟨by decide, hb, ha, ?_⟩
  intro heq
  rw [heq, hb] at ha
  exact absurd ha (by decide)

/-- C7.  The `getPaths()` snapshot is top-level independent: tampering with
its bindings (adding, replacing or deleting keys) changes no subsequent query
observation, and a later `register` neither changes the snapshot's bindings
nor the entries they reference. -/
theorem getPaths_snapshot_top_level_independent (st : RefSem.State) (h : RefSem.WF st) :
    (∀ k r, RefSem.obsEq
        (RefSem.mapSetAt (RefSem.getPaths st).1 (RefSem.getPaths st).2 k r) st) ∧
    (∀ k, RefSem.obsEq
        (RefSem.mapDeleteAt (RefSem.getPaths st).1 (RefSem.getPaths st).2 k) st) ∧
    (∀ key fn label navs group,
      RefSem.readMap (RefSem.registerPath (RefSem.getPaths st).1 key fn label navs group)
          (RefSem.getPaths st).2
        = RefSem.readMap (RefSem.getPaths st).1 (RefSem.getPaths st).2 ∧
      ∀ p ∈ RefSem.readMap (RefSem.getPaths st).1 (RefSem.getPaths st).2,
        RefSem.readEntry
            (RefSem.registerPath (RefSem.getPaths st).1 key fn label navs group) p.2
          = RefSem.readEntry (RefSem.getPaths st).1 p.2) := by
  have hsnapmap : RefSem.readMap (RefSem.getPaths st).1 st.pathsRef
      = RefSem.readMap st st.pathsRef :=
    RefSem.readMap_allocMap_lt st (RefSem.readMap st st.pathsRef) st.pathsRef h.1
  refine ⟨?_, ?_, ?_⟩
  · intro k r
    apply RefSem.obsEq_of_reads
    · have e1 : RefSem.readMap
          (RefSem.mapSetAt (RefSem.getPaths st).1 (RefSem.getPaths st).2 k r) st.pathsRef
          = RefSem.readMap (RefSem.getPaths st).1 st.pathsRef :=
        RefSem.readMap_writeMapAt_ne (RefSem.getPaths st).1 (RefSem.getPaths st).2 _
          st.pathsRef (Nat.ne_of_lt h.1)
      exact e1.trans hsnapmap
    · intro p _
      rfl
  · intro k
    apply RefSem.obsEq_of_reads
    · have e1 : RefSem.readMap
          (RefSem.mapDeleteAt (RefSem.getPaths st).1 (RefSem.getPaths st).2 k) st.pathsRef
          = RefSem.readMap (RefSem.getPaths st).1 st.pathsRef :=
        RefSem.readMap_writeMapAt_ne (RefSem.getPaths st).1 (RefSem.getPaths st).2 _
          st.pathsRef (Nat.ne_of_lt h.1)
      exact e1.trans hsnapmap
    · intro p _
      rfl
  · intro key fn label navs group
    constructor
    · exact RefSem.readMap_writeMapAt_ne
        (RefSem.allocEntry (RefSem.getPaths st).1 ⟨fn, label, some navs, group⟩).1
        st.pathsRef _ (RefSem.getPaths st).2 (ne_of_gt h.1)
    · intro p hp
      have hp' : p ∈ RefSem.readMap st st.pathsRef := by
        rw [← RefSem.readMap_getPaths_snap st]
        exact hp
      have hlt : p.2 < st.next := RefSem.binding_lt st h p hp'
      exact lookupKey_cons_ne ((RefSem.getPaths st).1.next,
          (⟨fn, label, some navs, group⟩ : RefSem.EntryObj)) (RefSem.getPaths st).1.entryHeap
          p.2 (ne_of_gt (lt_trans hlt (Nat.lt_succ_self _)))

/-- Concrete witness data for the snapshot-independence theorem. -/
theorem getPaths_snapshot_top_level_independent_witness :
    RefSem.obsGetPath
        (RefSem.mapSetAt (RefSem.getPaths RefSem.cexSt0).1 (RefSem.getPaths RefSem.cexSt0).2
          "evil" 0) "home"
      = RefSem.obsGetPath RefSem.cexSt0 "home" ∧
    RefSem.readMap
        (RefSem.registerPath (RefSem.getPaths RefSem.cexSt0).1 "about" homeFn "About" [] none)
        (RefSem.getPaths RefSem.cexSt0).2
      = RefSem.readMap (RefSem.getPaths RefSem.cexSt0).1 (RefSem.getPaths RefSem.cexSt0).2 := by
  have h := getPaths_snapshot_top_level_independent RefSem.cexSt0 (by decide)
  exact ⟨(h.1 "evil" 0).1 "home", (h.2.2 "about" homeFn "About" [] none).1⟩

/-- C9.  In every reachable state, every stored registry binding passes the
duck-typed `isPath` check (so the runtime checks inside the queries never
exclude a stored entry), and `getPath`'s shape check succeeds exactly when
the key is present in the registry map. -/
theorem stored_entries_isPath_invariant (st : RefSem.State) (h : RefSem.Reachable st) :
    (∀ p ∈ RefSem.readMap st st.pathsRef,
      RefSem.isPath (RefSem.readEntry st p.2) = true) ∧
    ∀ key : String, (RefSem.obsGetPath st key).isSome
      = (lookupKey (RefSem.readMap st st.pathsRef) key).isSome := by
  have hwf := RefSem.reachable_wf st h
  obtain ⟨h1, h2, h3, h4, h5⟩ := hwf
  refine ⟨h5, ?_⟩
  intro key
  cases hl : lookupKey (RefSem.readMap st st.pathsRef) key with
  | none =>
    have hobs : RefSem.obsGetPath st key = none := by
      unfold RefSem.obsGetPath
      rw [hl]
      rfl
    rw [hobs]
    rfl
  | some r =>
    have hm : (key, r) ∈ RefSem.readMap st st.pathsRef := RefSem.lookupKey_mem _ key r hl
    have hip : RefSem.isPath (RefSem.readEntry st r) = true := h5 (key, r) hm
    have hobs : RefSem.obsGetPath st key = (RefSem.readEntry st r).map RefSem.mkView := by
      unfold RefSem.obsGetPath
      rw [hl, show (some r).bind (RefSem.readEntry st) = RefSem.readEntry st r from rfl,
        RefSem.checkPath_of_isPath _ hip]
    rw [hobs]
    have hsome : (RefSem.readEntry st r).isSome = true := RefSem.isPath_isSome _ hip
    cases hre : RefSem.readEntry st r with
    | none =>
      rw [hre] at hsome
      exact absurd hsome (by decide)
    | some v => rfl

/-- Concrete witness data for the stored-shape invariant. -/
theorem stored_entries_isPath_invariant_witness :
    RefSem.isPath (RefSem.readEntry RefSem.cexSt0 1) = true ∧
    (RefSem.obsGetPath RefSem.cexSt0 "home").isSome
      = (lookupKey (RefSem.readMap RefSem.cexSt0 RefSem.cexSt0.pathsRef) "home").isSome := by
  have h := stored_entries_isPath_invariant RefSem.cexSt0
    (RefSem.Reachable.register RefSem.emptyState "home" homeFn "Home" ["main"] none
      RefSem.Reachable.init)
  exact ⟨h.1 ("home", 1) (by decide), h.2 "home"⟩
